import Mathlib

/-!
# Verification of the line-copy utility (src/c/main.c)

Shallow embedding of the C program: a getopt-style argument parser over the
option string "vf:n:", a `strtoul`-based numeric option, and the
`dump_file` copy loop built on `fgets(buf, sizeof(buf)-1, filep)` with
`char buf[80]` (so each read delivers at most 78 characters plus the NUL
terminator) and `fputs`.

Modelling conventions:
* A file's readable content is a `List Char` together with an `EndKind`
  recording whether reading stopped at end-of-file or at a read error;
  `fgets` returns NULL in both cases, and the copy loop cannot tell them
  apart.
* The file system is a function `String → Option FileT`; `none` means
  `fopen(path, "r")` fails.
* `getopt` is modelled per POSIX: option characters are scanned left to
  right inside each `-...` token, an option with argument takes the rest of
  the token or else the next token, scanning stops at `--`, at a lone `-`,
  or at the first non-option token.  (GNU argv permutation is not
  modelled.)  A missing option argument or an unknown option character
  yields the event `GetoptEv.bad`, on which `main` prints usage and exits.
* `strtoul(optarg, NULL, 10)` follows C semantics: skip whitespace, an
  optional sign, base-10 digits; no digits gives 0; overflow clamps to
  `ULONG_MAX` (64-bit unsigned long); a minus sign negates in unsigned
  arithmetic.  The assignment to the `int` variable `number` wraps the
  value to a signed 32-bit integer (`toInt32`), which is what `%d` prints.
* Standard output is modelled structurally: the two configuration-summary
  lines as `config : Option (Nat × Int)` (present iff they were printed)
  and the copied bytes as `body`; `stdoutStr` renders the actual text.
  Standard error is a list of `ErrMsg` values standing for the usage line
  and the two `perror` calls.
* For the handle invariant, the parser state carries a ghost list
  `handles` of currently open stream handles: `fopen` prepends the path,
  `fclose` removes it.
-/

set_option maxRecDepth 4096

/-- How the readable part of a stream ends: true end-of-file, or a read
error.  `fgets` returns NULL either way. -/
inductive EndKind where
  | eof : EndKind
  | ioError : EndKind
deriving DecidableEq

/-- A readable stream: the characters that reads will deliver, and how
delivery stops. -/
abbrev FileT := List Char × EndKind

/-- The one errno value `dump_file` can set (`EINVAL`). -/
inductive Errno where
  | einval : Errno
deriving DecidableEq

/-- Whitespace as recognised by `strtoul` (C `isspace` in the C locale). -/
def isSpaceC (c : Char) : Bool :=
  c == ' ' || c == '\t' || c == '\n' || c == '\x0b' || c == '\x0c' || c == '\r'

/-- `ULONG_MAX` for a 64-bit `unsigned long`. -/
def ULONG_MAX : Nat := 2 ^ 64 - 1

/-- Value of a base-10 digit string. -/
def digitsToNat (ds : List Char) : Nat :=
  List.foldl (fun a c => a * 10 + (c.toNat - 48)) 0 ds

/-- Drop one leading sign character, if present. -/
def stripSign : List Char → List Char
  | '-' :: r => r
  | '+' :: r => r
  | s => s

/-- Does the subject sequence start with a minus sign (after whitespace)? -/
def negSign (s : List Char) : Bool :=
  match s.dropWhile isSpaceC with
  | '-' :: _ => true
  | _ => false

/-- `strtoul(s, NULL, 10)`: skip whitespace and an optional sign, read
base-10 digits.  No digits gives 0; a value above `ULONG_MAX` clamps to
`ULONG_MAX` (ERANGE); a minus sign negates in 64-bit unsigned arithmetic. -/
def strtoul10 (s : List Char) : Nat :=
  let s2 := stripSign (s.dropWhile isSpaceC)
  let ds := s2.takeWhile Char.isDigit
  if ds.isEmpty then 0
  else
    let m := digitsToNat ds
    if ULONG_MAX < m then ULONG_MAX
    else if negSign s then (2 ^ 64 - m) % 2 ^ 64
    else m

/-- A string with no digits in strtoul's subject sequence: the whole parse
yields 0. -/
def nonNumeric (s : List Char) : Bool :=
  ((stripSign (s.dropWhile isSpaceC)).takeWhile Char.isDigit).isEmpty

/-- Conversion of the `unsigned long` result to the `int` variable
`number` (wrap modulo 2^32, two's complement), as printed by `%d`. -/
def toInt32 (n : Nat) : Int :=
  let m : Nat := n % 2 ^ 32
  if m < 2 ^ 31 then (m : Int) else (m : Int) - 2 ^ 32

/-- One `fgets` call with room for `n` characters: take characters up to
and including the first newline, but at most `n` of them.  Returns the
characters delivered and the rest of the stream. -/
def readLine : Nat → List Char → List Char × List Char
  | 0, s => ([], s)
  | _ + 1, [] => ([], [])
  | n + 1, c :: rest =>
    if c = '\n' then ([c], rest)
    else
      let p := readLine n rest
      (c :: p.1, p.2)

/-- The successive chunks delivered by `fgets(buf, 79, filep)` (at most 78
characters each), with explicit fuel for structural recursion.  Fuel equal
to the stream length always suffices, since each nonempty read consumes at
least one character. -/
def dumpChunksF : Nat → List Char → List (List Char)
  | 0, _ => []
  | _ + 1, [] => []
  | fuel + 1, c :: cs =>
    let p := readLine 78 (c :: cs)
    p.1 :: dumpChunksF fuel p.2

/-- The chunk sequence `dump_file`'s loop reads from a stream. -/
def dumpChunks (s : List Char) : List (List Char) :=
  dumpChunksF s.length s

/-- Result of `dump_file`: the C return value, the errno it set (if any),
and the bytes written to the output stream. -/
structure DumpResult where
  ret : Int
  errno : Option Errno
  out : List Char
deriving DecidableEq

/-- `dump_file(filep, output)`: NULL input sets `errno = EINVAL` and
returns -1 with no output; otherwise the `fgets`/`fputs` loop copies every
delivered chunk and returns 0 once `fgets` returns NULL (end-of-file and
read error alike). -/
def dump_file (filep : Option FileT) : DumpResult :=
  match filep with
  | none => ⟨-1, some Errno.einval, []⟩
  | some f => ⟨0, none, (dumpChunks f.1).flatten⟩

/-- An option event produced by the `getopt` loop: `-v`, `-f` with its
argument, `-n` with its argument, or an error (`'?'` from getopt: unknown
option character, or missing option argument). -/
inductive GetoptEv where
  | v : GetoptEv
  | f : String → GetoptEv
  | n : String → GetoptEv
  | bad : GetoptEv
deriving DecidableEq

/-- Scan the option characters of one `-...` token (option string
"vf:n:").  `rest` is the remaining argv tokens; an option wanting an
argument takes the rest of the token if nonempty, else the next token.
Returns the events of this token and the tokens left over. -/
def charEvents : List Char → List String → List GetoptEv × List String
  | [], rest => ([], rest)
  | c :: cs, rest =>
    if c = 'v' then
      let p := charEvents cs rest
      (GetoptEv.v :: p.1, p.2)
    else if c = 'f' then
      match cs, rest with
      | _ :: _, _ => ([GetoptEv.f (String.mk cs)], rest)
      | [], a :: r => ([GetoptEv.f a], r)
      | [], [] => ([GetoptEv.bad], [])
    else if c = 'n' then
      match cs, rest with
      | _ :: _, _ => ([GetoptEv.n (String.mk cs)], rest)
      | [], a :: r => ([GetoptEv.n a], r)
      | [], [] => ([GetoptEv.bad], [])
    else
      let p := charEvents cs rest
      (GetoptEv.bad :: p.1, p.2)

/-- The full event stream of the `getopt` loop over an argv tail, with
explicit fuel (the token count always suffices).  Scanning stops at `--`,
at a lone `-`, and at the first token not starting with `-`. -/
def getoptEventsF : Nat → List String → List GetoptEv
  | 0, _ => []
  | _ + 1, [] => []
  | fuel + 1, t :: ts =>
    match t.data with
    | '-' :: c :: cs =>
      if c = '-' ∧ cs = [] then []
      else
        let p := charEvents (c :: cs) ts
        p.1 ++ getoptEventsF fuel p.2
    | _ => []

/-- Events the `getopt` loop produces for an argument list. -/
def getoptEvents (args : List String) : List GetoptEv :=
  getoptEventsF args.length args

/-- Parser state during the option loop: the three configuration
variables of `main` (`verbose`, `number`, `fp`), the path behind the open
stream, and the ghost list of currently open stream handles. -/
structure ParserSt where
  verbose : Nat
  number : Int
  fp : Option FileT
  fpPath : Option String
  handles : List String
deriving DecidableEq

/-- Initial state of `main`: `verbose = 0`, `number = 0`, `fp = NULL`. -/
def st0 : ParserSt := ⟨0, 0, none, none, []⟩

/-- The two ways option processing aborts the process. -/
inductive StepError where
  | usage : StepError
  | openFail : String → StepError
deriving DecidableEq

/-- `if (fp) fclose(fp);`: close the currently open stream, removing its
handle. -/
def closeCur (st : ParserSt) : ParserSt :=
  match st.fpPath with
  | some q => ⟨st.verbose, st.number, none, none, st.handles.erase q⟩
  | none => st

/-- `fp = fopen(optarg, "r")`: on failure the process exits; on success
the new stream is installed and its handle recorded. -/
def openF (fs : String → Option FileT) (p : String) (st : ParserSt) :
    Except StepError ParserSt :=
  match fs p with
  | none => Except.error (StepError.openFail p)
  | some c => Except.ok ⟨st.verbose, st.number, some c, some p, p :: st.handles⟩

/-- Effect of one option event on the parser state (the body of the
`switch`). -/
def applyEv (fs : String → Option FileT) (st : ParserSt) :
    GetoptEv → Except StepError ParserSt
  | GetoptEv.v => Except.ok ⟨st.verbose + 1, st.number, st.fp, st.fpPath, st.handles⟩
  | GetoptEv.n a =>
    Except.ok ⟨st.verbose, toInt32 (strtoul10 a.data), st.fp, st.fpPath, st.handles⟩
  | GetoptEv.f a => openF fs a (closeCur st)
  | GetoptEv.bad => Except.error StepError.usage

/-- The `while (getopt...)` loop: fold the events, stopping at the first
aborting one. -/
def runEvents (fs : String → Option FileT) :
    ParserSt → List GetoptEv → Except StepError ParserSt
  | st, [] => Except.ok st
  | st, e :: evs =>
    match applyEv fs st e with
    | Except.ok st2 => runEvents fs st2 evs
    | Except.error err => Except.error err

/-- Argument parsing of `main` over an argv tail. -/
def parseArgs (fs : String → Option FileT) (args : List String) :
    Except StepError ParserSt :=
  runEvents fs st0 (getoptEvents args)

/-- Every parser state passed through while processing the events,
including the intermediate state after `fclose` and before `fopen` inside
the `-f` case. -/
def runStates (fs : String → Option FileT) :
    ParserSt → List GetoptEv → List ParserSt
  | st, [] => [st]
  | st, e :: evs =>
    let mid := match e with
      | GetoptEv.f _ => [closeCur st]
      | _ => []
    st :: mid ++ (match applyEv fs st e with
      | Except.ok st2 => runStates fs st2 evs
      | Except.error _ => [])

/-- All states passed through while parsing an argument list. -/
def parseStates (fs : String → Option FileT) (args : List String) :
    List ParserSt :=
  runStates fs st0 (getoptEvents args)

/-- Messages on the error stream: the usage line (carrying
`basename(argv[0])`), `perror("-f: error opening file")`, and
`perror("dump_file")` with the errno it reports. -/
inductive ErrMsg where
  | usage : String → ErrMsg
  | openFail : ErrMsg
  | dumpFail : Option Errno → ErrMsg
deriving DecidableEq

/-- Observable outcome of a run: the configuration-summary values if the
two lines were printed, the bytes the copier wrote to standard output, the
error-stream messages, and the exit status. -/
structure RunResult where
  config : Option (Nat × Int)
  body : List Char
  err : List ErrMsg
  exit : Nat
deriving DecidableEq

/-- POSIX `basename(3)`: last pathname component, with trailing slashes
removed; `""` gives `"."` and an all-slash path gives `"/"`. -/
def basename (s : String) : String :=
  if s.data.isEmpty then "."
  else
    let r := s.data.reverse.dropWhile (fun c => c == '/')
    if r.isEmpty then "/"
    else String.mk (r.takeWhile (fun c => c != '/')).reverse

/-- The whole program: parse the options (aborting on usage error or open
failure before anything reaches standard output), print the two
configuration lines, run `dump_file`, and exit 0 iff the copy succeeded. -/
def mainRun (fs : String → Option FileT) (argv0 : String)
    (args : List String) : RunResult :=
  match parseArgs fs args with
  | Except.error StepError.usage => ⟨none, [], [ErrMsg.usage (basename argv0)], 1⟩
  | Except.error (StepError.openFail _) => ⟨none, [], [ErrMsg.openFail], 1⟩
  | Except.ok st =>
    let d := dump_file st.fp
    if d.ret < 0 then ⟨some (st.verbose, st.number), d.out, [ErrMsg.dumpFail d.errno], 1⟩
    else ⟨some (st.verbose, st.number), d.out, [], 0⟩

/-- The text of the two configuration-summary lines (`printf` formats
`"verbose = %d\n"` and `"number  = %d\n"`). -/
def configStr (v : Nat) (n : Int) : String :=
  "verbose = " ++ toString v ++ "\n" ++ "number  = " ++ toString n ++ "\n"

/-- The full standard-output text of a run. -/
def stdoutStr (r : RunResult) : String :=
  match r.config with
  | none => ""
  | some (v, n) => configStr v n ++ String.mk r.body

/-- Is an event the `-v` event? -/
def isV : GetoptEv → Bool
  | GetoptEv.v => true
  | _ => false

/-- Number of `-v` flag occurrences the option scanner recognises in an
argument list (grouped flags such as `-vv` count each character; a token
consumed as an option argument is not a flag). -/
def vFlagCount (args : List String) : Nat :=
  ((getoptEvents args).filter isV).length

/-- Add `k` to the verbosity counter of a state. -/
def addVerb (k : Nat) (st : ParserSt) : ParserSt :=
  ⟨st.verbose + k, st.number, st.fp, st.fpPath, st.handles⟩

/-! ## Lemmas about the copy loop -/

theorem readLine_append (n : Nat) (s : List Char) :
    (readLine n s).1 ++ (readLine n s).2 = s := by
  induction n generalizing s with
  | zero => simp [readLine]
  | succ n ih =>
    cases s with
    | nil => simp [readLine]
    | cons c rest =>
      by_cases h : c = '\n'
      · simp [readLine, h]
      · simp [readLine, h, ih rest]

theorem readLine_fst_len (n : Nat) (s : List Char) :
    (readLine n s).1.length ≤ n := by
  induction n generalizing s with
  | zero => simp [readLine]
  | succ n ih =>
    cases s with
    | nil => simp [readLine]
    | cons c rest =>
      by_cases h : c = '\n'
      · simp [readLine, h]
      · simpa [readLine, h, Nat.succ_le_succ_iff] using ih rest

theorem readLine_snd_le (n : Nat) (s : List Char) :
    (readLine n s).2.length ≤ s.length := by
  induction n generalizing s with
  | zero => simp [readLine]
  | succ n ih =>
    cases s with
    | nil => simp [readLine]
    | cons c rest =>
      by_cases h : c = '\n'
      · simp [readLine, h]
      · have := ih rest
        simp [readLine, h]
        omega

theorem readLine_snd_lt (n : Nat) (c : Char) (cs : List Char) :
    (readLine (n + 1) (c :: cs)).2.length < (c :: cs).length := by
  by_cases h : c = '\n'
  · simp [readLine, h]
  · have := readLine_snd_le n cs
    simp [readLine, h]
    omega

theorem readLine_fst_ne (n : Nat) (c : Char) (cs : List Char) :
    (readLine (n + 1) (c :: cs)).1 ≠ [] := by
  by_cases h : c = '\n' <;> simp [readLine, h]

theorem dumpChunksF_flatten (fuel : Nat) :
    ∀ s : List Char, s.length ≤ fuel → (dumpChunksF fuel s).flatten = s := by
  induction fuel with
  | zero =>
    intro s hs
    have : s = [] := List.length_eq_zero.mp (Nat.le_zero.mp hs)
    simp [this, dumpChunksF]
  | succ fuel ih =>
    intro s hs
    cases s with
    | nil => simp [dumpChunksF]
    | cons c cs =>
      have hlt : (readLine 78 (c :: cs)).2.length < (c :: cs).length :=
        readLine_snd_lt 77 c cs
      have hrec := ih (readLine 78 (c :: cs)).2 (by
        have : (c :: cs).length ≤ fuel + 1 := hs
        omega)
      simp only [dumpChunksF, List.flatten_cons, hrec]
      exact readLine_append 78 (c :: cs)

theorem dumpChunks_flatten (s : List Char) : (dumpChunks s).flatten = s :=
  dumpChunksF_flatten s.length s le_rfl

theorem dumpChunksF_mem (fuel : Nat) :
    ∀ s c, c ∈ dumpChunksF fuel s → c.length ≤ 78 ∧ c ≠ [] := by
  induction fuel with
  | zero => intro s c hc; simp [dumpChunksF] at hc
  | succ fuel ih =>
    intro s c hc
    cases s with
    | nil => simp [dumpChunksF] at hc
    | cons a as =>
      simp only [dumpChunksF, List.mem_cons] at hc
      rcases hc with h | h
      · subst h
        exact ⟨readLine_fst_len 78 (a :: as), readLine_fst_ne 77 a as⟩
      · exact ih _ c h

/-! ## Lemmas about the option loop -/

theorem runEvents_append_ok (fs : String → Option FileT)
    (evs1 evs2 : List GetoptEv) :
    ∀ st st1, runEvents fs st evs1 = Except.ok st1 →
      runEvents fs st (evs1 ++ evs2) = runEvents fs st1 evs2 := by
  induction evs1 with
  | nil =>
    intro st st1 h
    simp only [runEvents] at h
    cases h
    simp
  | cons e evs ih =>
    intro st st1 h
    simp only [runEvents, List.cons_append] at h ⊢
    cases happ : applyEv fs st e with
    | ok st2 =>
      rw [happ] at h
      exact ih st2 st1 h
    | error err =>
      rw [happ] at h
      cases h

theorem closeCur_verbose (st : ParserSt) : (closeCur st).verbose = st.verbose := by
  cases h : st.fpPath <;> simp [closeCur, h]

theorem closeCur_number (st : ParserSt) : (closeCur st).number = st.number := by
  cases h : st.fpPath <;> simp [closeCur, h]

theorem closeCur_fpPath (st : ParserSt) : (closeCur st).fpPath = none ∨
    (closeCur st).fpPath = st.fpPath := by
  cases h : st.fpPath <;> simp [closeCur, h]

theorem runEvents_verbose (fs : String → Option FileT) (evs : List GetoptEv) :
    ∀ st st1, runEvents fs st evs = Except.ok st1 →
      st1.verbose = st.verbose + (evs.filter isV).length := by
  induction evs with
  | nil =>
    intro st st1 h
    simp only [runEvents] at h
    cases h
    simp
  | cons e evs ih =>
    intro st st1 h
    cases e with
    | v =>
      simp only [runEvents, applyEv] at h
      have := ih _ _ h
      simp only [List.filter, isV] at *
      simp at this ⊢
      omega
    | n a =>
      simp only [runEvents, applyEv] at h
      have := ih _ _ h
      simp only [List.filter, isV] at *
      simpa using this
    | f a =>
      simp only [runEvents, applyEv, openF] at h
      cases hfs : fs a with
      | none => rw [hfs] at h; cases h
      | some c =>
        rw [hfs] at h
        have hflt : List.filter isV (GetoptEv.f a :: evs) = List.filter isV evs := by
          simp [List.filter_cons, isV]
        simpa [hflt, closeCur_verbose] using ih _ _ h
    | bad =>
      simp only [runEvents, applyEv] at h
      cases h

theorem runEvents_bad (fs : String → Option FileT)
    (hfs : ∀ p, (fs p).isSome) (evs : List GetoptEv) :
    ∀ st, GetoptEv.bad ∈ evs →
      runEvents fs st evs = Except.error StepError.usage := by
  induction evs with
  | nil => intro st h; cases h
  | cons e evs ih =>
    intro st hmem
    cases e with
    | bad => simp [runEvents, applyEv]
    | v =>
      have hm : GetoptEv.bad ∈ evs := by simpa using hmem
      simp only [runEvents, applyEv]
      exact ih _ hm
    | n a =>
      have hm : GetoptEv.bad ∈ evs := by simpa using hmem
      simp only [runEvents, applyEv]
      exact ih _ hm
    | f a =>
      have hm : GetoptEv.bad ∈ evs := by simpa using hmem
      obtain ⟨c, hc⟩ := Option.isSome_iff_exists.mp (hfs a)
      simp only [runEvents, applyEv, openF, hc]
      exact ih _ hm

theorem addVerb_zero (st : ParserSt) : addVerb 0 st = st := by
  cases st; simp [addVerb]

theorem closeCur_addVerb (k : Nat) (st : ParserSt) :
    closeCur (addVerb k st) = addVerb k (closeCur st) := by
  cases st with
  | mk v nm fp fpp hs => cases fpp <;> simp [closeCur, addVerb]

theorem openF_addVerb (fs : String → Option FileT) (p : String) (k : Nat)
    (st : ParserSt) :
    openF fs p (addVerb k st) = (openF fs p st).map (addVerb k) := by
  cases hfs : fs p <;> simp [openF, addVerb, hfs, Except.map]

theorem runEvents_addVerb (fs : String → Option FileT) (evs : List GetoptEv) :
    ∀ v nm fp fpp hs k,
      runEvents fs ⟨v + k, nm, fp, fpp, hs⟩ evs
        = (runEvents fs ⟨v, nm, fp, fpp, hs⟩ evs).map (addVerb k) := by
  induction evs with
  | nil => intro v nm fp fpp hs k; simp [runEvents, Except.map, addVerb]
  | cons e evs ih =>
    intro v nm fp fpp hs k
    cases e with
    | v =>
      simp only [runEvents, applyEv]
      rw [show v + k + 1 = (v + 1) + k by omega]
      exact ih (v + 1) nm fp fpp hs k
    | n a =>
      simp only [runEvents, applyEv]
      exact ih v (toInt32 (strtoul10 a.data)) fp fpp hs k
    | f a =>
      simp only [runEvents, applyEv]
      cases fpp with
      | none =>
        simp only [closeCur]
        cases hfs : fs a with
        | none => simp [openF, hfs, Except.map]
        | some c =>
          simp only [openF, hfs]
          exact ih v nm (some c) (some a) (a :: hs) k
      | some q =>
        simp only [closeCur]
        cases hfs : fs a with
        | none => simp [openF, hfs, Except.map]
        | some c =>
          simp only [openF, hfs]
          exact ih v nm (some c) (some a) (a :: hs.erase q) k
    | bad => simp [runEvents, applyEv, Except.map]

theorem runEvents_replicate_v (fs : String → Option FileT) (k : Nat) :
    ∀ evs v nm fp fpp hs,
      runEvents fs ⟨v, nm, fp, fpp, hs⟩ (List.replicate k GetoptEv.v ++ evs)
        = runEvents fs ⟨v + k, nm, fp, fpp, hs⟩ evs := by
  induction k with
  | zero => intro evs v nm fp fpp hs; simp
  | succ k ih =>
    intro evs v nm fp fpp hs
    simp only [List.replicate_succ, List.cons_append, runEvents, applyEv]
    have h2 := ih evs (v + 1) nm fp fpp hs
    rw [show v + 1 + k = v + (k + 1) by omega] at h2
    exact h2

/-! ## The handle invariant -/

/-- The ghost handle list tracks exactly the stream `fp` points to. -/
def goodSt (st : ParserSt) : Prop := st.handles = st.fpPath.toList

theorem goodSt_st0 : goodSt st0 := rfl

theorem goodSt_len (st : ParserSt) (h : goodSt st) : st.handles.length ≤ 1 := by
  cases hp : st.fpPath with
  | none => rw [goodSt, hp] at h; simp [h]
  | some q => rw [goodSt, hp] at h; simp [h]

theorem closeCur_closed (st : ParserSt) (h : goodSt st) :
    (closeCur st).handles = [] ∧ (closeCur st).fpPath = none := by
  cases hp : st.fpPath with
  | none =>
    rw [goodSt, hp] at h
    simp [closeCur, hp, h]
  | some q =>
    rw [goodSt, hp] at h
    simp [closeCur, hp, h, List.erase_cons_head]

theorem goodSt_closeCur (st : ParserSt) (h : goodSt st) : goodSt (closeCur st) := by
  obtain ⟨h1, h2⟩ := closeCur_closed st h
  rw [goodSt, h1, h2]
  rfl

theorem goodSt_applyEv (fs : String → Option FileT) (st st2 : ParserSt)
    (e : GetoptEv) (h : goodSt st) (happ : applyEv fs st e = Except.ok st2) :
    goodSt st2 := by
  cases e with
  | v =>
    simp only [applyEv] at happ
    cases happ
    exact h
  | n a =>
    simp only [applyEv] at happ
    cases happ
    exact h
  | f a =>
    simp only [applyEv, openF] at happ
    obtain ⟨h1, h2⟩ := closeCur_closed st h
    cases hfs : fs a with
    | none => rw [hfs] at happ; cases happ
    | some c =>
      rw [hfs] at happ
      cases happ
      rw [goodSt, h1]
      rfl
  | bad => simp only [applyEv] at happ; cases happ

theorem runStates_handles (fs : String → Option FileT) (evs : List GetoptEv) :
    ∀ st, goodSt st → ∀ x ∈ runStates fs st evs, x.handles.length ≤ 1 := by
  induction evs with
  | nil =>
    intro st hst x hx
    simp only [runStates, List.mem_singleton] at hx
    subst hx
    exact goodSt_len _ hst
  | cons e evs ih =>
    intro st hst x hx
    cases e with
    | v =>
      cases happ : applyEv fs st GetoptEv.v with
      | error err => simp [applyEv] at happ
      | ok st2 =>
        simp [runStates, happ] at hx
        rcases hx with rfl | hx
        · exact goodSt_len _ hst
        · exact ih st2 (goodSt_applyEv fs st st2 _ hst happ) x hx
    | n a =>
      cases happ : applyEv fs st (GetoptEv.n a) with
      | error err => simp [applyEv] at happ
      | ok st2 =>
        simp [runStates, happ] at hx
        rcases hx with rfl | hx
        · exact goodSt_len _ hst
        · exact ih st2 (goodSt_applyEv fs st st2 _ hst happ) x hx
    | f a =>
      cases happ : applyEv fs st (GetoptEv.f a) with
      | error err =>
        simp [runStates, happ] at hx
        rcases hx with rfl | rfl
        · exact goodSt_len _ hst
        · exact goodSt_len _ (goodSt_closeCur st hst)
      | ok st2 =>
        simp [runStates, happ] at hx
        rcases hx with rfl | rfl | hx
        · exact goodSt_len _ hst
        · exact goodSt_len _ (goodSt_closeCur st hst)
        · exact ih st2 (goodSt_applyEv fs st st2 _ hst happ) x hx
    | bad =>
      simp [runStates, applyEv] at hx
      subst hx
      exact goodSt_len _ hst

/-! ## Frame lemma: without `-f` events the stream stays as it was -/

theorem runEvents_fp_of_no_f (fs : String → Option FileT) (evs : List GetoptEv) :
    ∀ st st1, runEvents fs st evs = Except.ok st1 →
      (∀ p, GetoptEv.f p ∉ evs) → st1.fp = st.fp := by
  induction evs with
  | nil =>
    intro st st1 h hnf
    simp only [runEvents] at h
    cases h
    rfl
  | cons e evs ih =>
    intro st st1 h hnf
    cases e with
    | v =>
      simp only [runEvents, applyEv] at h
      exact ih ⟨st.verbose + 1, st.number, st.fp, st.fpPath, st.handles⟩ st1 h
        fun p hp => hnf p (List.mem_cons_of_mem _ hp)
    | n a =>
      simp only [runEvents, applyEv] at h
      exact ih ⟨st.verbose, toInt32 (strtoul10 a.data), st.fp, st.fpPath,
          st.handles⟩ st1 h
        fun p hp => hnf p (List.mem_cons_of_mem _ hp)
    | f a => exact absurd (List.mem_cons_self _ _) (hnf a)
    | bad => simp only [runEvents, applyEv] at h; cases h

/-! ## Lemmas about the numeric option -/

theorem toInt32_small (m : Nat) (h : m < 2 ^ 31) : toInt32 m = (m : Int) := by
  have h32 : m < 2 ^ 32 := lt_trans h (by norm_num)
  show (if m % 2 ^ 32 < 2 ^ 31 then ((m % 2 ^ 32 : Nat) : Int)
      else ((m % 2 ^ 32 : Nat) : Int) - 2 ^ 32) = (m : Int)
  rw [Nat.mod_eq_of_lt h32, if_pos h]

theorem strtoul10_nonNumeric (s : List Char) (h : nonNumeric s = true) :
    strtoul10 s = 0 := by
  rw [nonNumeric] at h
  rw [strtoul10]
  simp [h]

theorem getoptEvents_vcons (ts : List String) :
    getoptEvents ("-v" :: ts) = GetoptEv.v :: getoptEvents ts := rfl

theorem getoptEvents_replicate_v (k : Nat) (ts : List String) :
    getoptEvents (List.replicate k "-v" ++ ts)
      = List.replicate k GetoptEv.v ++ getoptEvents ts := by
  induction k with
  | zero => simp
  | succ k ih =>
    simp only [List.replicate_succ, List.cons_append, getoptEvents_vcons, ih]

/-! ## The claims -/

/-- C1: for every readable file named by `-f <path>`, the program writes
the file's contents byte-for-byte to standard output, preceded by exactly
the two configuration-summary lines (`verbose = 0`, `number  = 0`), and
exits 0; the round trip holds for every content, in particular for a
single line exactly filling the fgets buffer. -/
theorem c1_file_copied_verbatim (fs : String → Option FileT)
    (argv0 path : String) (content : List Char) (ek : EndKind)
    (h : fs path = some (content, ek)) :
    mainRun fs argv0 ["-f", path] = ⟨some (0, 0), content, [], 0⟩ ∧
    stdoutStr (mainRun fs argv0 ["-f", path])
      = configStr 0 0 ++ String.mk content := by
  have hev : getoptEvents ["-f", path] = [GetoptEv.f path] := rfl
  have hpar : parseArgs fs ["-f", path]
      = Except.ok ⟨0, 0, some (content, ek), some path, [path]⟩ := by
    rw [parseArgs, hev]
    simp [runEvents, applyEv, closeCur, st0, openF, h]
  have hm : mainRun fs argv0 ["-f", path] = ⟨some (0, 0), content, [], 0⟩ := by
    simp [mainRun, hpar, dump_file, dumpChunks_flatten]
  exact ⟨hm, by rw [hm]; rfl⟩

/-- Witness for C1: a file whose single line has 77 characters plus the
newline, exactly filling one 78-character fgets read, round-trips. -/
theorem c1_witness :
    mainRun
        (fun p => if p = "f.txt"
          then some (List.replicate 77 'a' ++ ['\n'], EndKind.eof) else none)
        "prog" ["-f", "f.txt"]
      = ⟨some (0, 0), List.replicate 77 'a' ++ ['\n'], [], 0⟩ ∧
    stdoutStr (mainRun
        (fun p => if p = "f.txt"
          then some (List.replicate 77 'a' ++ ['\n'], EndKind.eof) else none)
        "prog" ["-f", "f.txt"])
      = configStr 0 0 ++ String.mk (List.replicate 77 'a' ++ ['\n']) :=
  c1_file_copied_verbatim _ "prog" "f.txt" (List.replicate 77 'a' ++ ['\n'])
    EndKind.eof (by decide)

/-- C2: the copy fails iff the input stream is NULL; a NULL input fails
with EINVAL and writes nothing; every non-NULL input returns success once
reading stops, a read error being indistinguishable from end-of-file; and
the process exits 0 exactly when parsing succeeded (no usage error, no
open failure) and an input stream was open. -/
theorem c2_copy_failure_iff_null_input :
    ((dump_file none).ret = -1 ∧ (dump_file none).errno = some Errno.einval ∧
      (dump_file none).out = []) ∧
    (∀ f : FileT, (dump_file (some f)).ret = 0) ∧
    (∀ inp : Option FileT, (dump_file inp).ret < 0 ↔ inp = none) ∧
    (∀ c : List Char,
      dump_file (some (c, EndKind.eof)) = dump_file (some (c, EndKind.ioError))) ∧
    (∀ (fs : String → Option FileT) (argv0 : String) (args : List String),
      (mainRun fs argv0 args).exit = 0 ↔
        ∃ st, parseArgs fs args = Except.ok st ∧ st.fp ≠ none) := by
  refine ⟨⟨rfl, rfl, rfl⟩, fun f => rfl, fun inp => ?_, fun c => rfl, ?_⟩
  · cases inp <;> simp [dump_file]
  · intro fs argv0 args
    cases hp : parseArgs fs args with
    | error e => cases e <;> simp [mainRun, hp]
    | ok st =>
      cases hfp : st.fp with
      | none => simp [mainRun, hp, dump_file, hfp]
      | some f => simp [mainRun, hp, dump_file, hfp]

/-- C3 counterexample: the claim says the printed number equals the parsed
base-10 unsigned value for every numeric string, but `number` is an `int`
printed with `%d`: for `-n 2147483648` the parsed value is 2147483648
while the printed number is -2147483648. -/
theorem c3_counterexample :
    strtoul10 "2147483648".data = 2147483648 ∧
    (mainRun (fun _ => none) "prog" ["-n", "2147483648"]).config
      = some (0, -2147483648) ∧
    (mainRun (fun _ => none) "prog" ["-n", "2147483648"]).config
      ≠ some (0, (2147483648 : Int)) := by
  exact ⟨by decide, by decide, by decide⟩

/-- C3 (amended): for `-n <value>` the printed number is the strtoul value
of `<value>` converted to a signed 32-bit integer; it equals the parsed
base-10 unsigned value whenever that value is below 2^31, and a
non-numeric `<value>` yields 0 with no validation error (the run still
prints the configuration lines). -/
theorem c3_number_printed_int32 (fs : String → Option FileT)
    (argv0 v : String) :
    (mainRun fs argv0 ["-n", v]).config
      = some (0, toInt32 (strtoul10 v.data)) ∧
    (strtoul10 v.data < 2 ^ 31 →
      toInt32 (strtoul10 v.data) = (strtoul10 v.data : Int)) ∧
    (nonNumeric v.data = true → toInt32 (strtoul10 v.data) = 0) := by
  have hev : getoptEvents ["-n", v] = [GetoptEv.n v] := rfl
  have hpar : parseArgs fs ["-n", v]
      = Except.ok ⟨0, toInt32 (strtoul10 v.data), none, none, []⟩ := by
    rw [parseArgs, hev]
    rfl
  refine ⟨?_, fun h => toInt32_small _ h, fun h => ?_⟩
  · simp [mainRun, hpar, dump_file]
  · rw [strtoul10_nonNumeric v.data h]
    decide

/-- Witness for C3's amended theorem: `-n 42` prints 42; `-n abc` parses
to 0. -/
theorem c3_witness :
    (mainRun (fun _ => none) "prog" ["-n", "42"]).config
      = some (0, toInt32 (strtoul10 "42".data)) ∧
    toInt32 (strtoul10 "42".data) = (strtoul10 "42".data : Int) ∧
    toInt32 (strtoul10 "abc".data) = 0 :=
  ⟨(c3_number_printed_int32 (fun _ => none) "prog" "42").1,
   (c3_number_printed_int32 (fun _ => none) "prog" "42").2.1 (by decide),
   (c3_number_printed_int32 (fun _ => none) "prog" "abc").2.2 (by decide)⟩

/-- C4: every fgets read of the copy loop delivers a nonempty chunk of at
most 78 characters — 79 bytes in the buffer counting the NUL terminator
fgets appends — each written verbatim; the chunks concatenate back to the
whole stream (a line longer than the buffer is split across successive
reads, nothing lost), and the copy returns success. -/
theorem c4_chunked_copy (input c : List Char) (hc : c ∈ dumpChunks input) :
    (c.length + 1 ≤ 79 ∧ c ≠ []) ∧
    (dumpChunks input).flatten = input ∧
    (dump_file (some (input, EndKind.eof))).ret = 0 := by
  obtain ⟨h1, h2⟩ := dumpChunksF_mem input.length input c hc
  exact ⟨⟨by omega, h2⟩, dumpChunks_flatten input, rfl⟩

/-- Witness for C4: a 100-character line is split into a 78-character
chunk and a 22-character chunk. -/
theorem c4_witness :
    ((List.replicate 78 'a').length + 1 ≤ 79 ∧ List.replicate 78 'a' ≠ []) ∧
    (dumpChunks (List.replicate 100 'a')).flatten = List.replicate 100 'a' ∧
    (dump_file (some (List.replicate 100 'a', EndKind.eof))).ret = 0 :=
  c4_chunked_copy (List.replicate 100 'a') (List.replicate 78 'a') (by decide)

/-- C5: whenever the configuration lines are printed (parsing completed),
the printed verbosity counter equals the number of `-v` flag occurrences
the option scanner recognises in the argument list. -/
theorem c5_verbose_counts_v_flags (fs : String → Option FileT)
    (argv0 : String) (args : List String) (st : ParserSt)
    (h : parseArgs fs args = Except.ok st) :
    (mainRun fs argv0 args).config.map Prod.fst = some (vFlagCount args) := by
  have hv := runEvents_verbose fs (getoptEvents args) st0 st h
  have hveq : st.verbose = vFlagCount args := by
    simpa [vFlagCount, st0] using hv
  simp only [mainRun, h]
  by_cases hd : (dump_file st.fp).ret < 0 <;> simp [hd, hveq]

/-- Witness for C5: `-v -vvn 5 -v` carries four `-v` flags; `5` is the
argument of `-n`, not a flag. -/
theorem c5_witness :
    (mainRun (fun _ => none) "prog" ["-v", "-vvn", "5", "-v"]).config.map
        Prod.fst
      = some (vFlagCount ["-v", "-vvn", "5", "-v"]) :=
  c5_verbose_counts_v_flags (fun _ => none) "prog" ["-v", "-vvn", "5", "-v"]
    ⟨4, 5, none, none, []⟩ rfl

/-- C6: throughout argument parsing at most one stream handle is open at
any time; the `-f` handler first closes the previously open stream and
only then opens the new one (the state after `fclose` sits between the
two); supplying `-f` twice therefore copies only the last-named file's
contents, with no error and with the first handle closed (no leak: the
final state holds exactly the last handle). -/
theorem c6_single_open_handle :
    (∀ (fs : String → Option FileT) (args : List String),
      ∀ x ∈ parseStates fs args, x.handles.length ≤ 1) ∧
    (∀ (fs : String → Option FileT) (st : ParserSt) (a : String)
        (evs : List GetoptEv),
      (runStates fs st (GetoptEv.f a :: evs)).take 2 = [st, closeCur st] ∧
      applyEv fs st (GetoptEv.f a) = openF fs a (closeCur st)) ∧
    (∀ (fs : String → Option FileT) (argv0 p1 p2 : String)
        (c1 c2 : List Char) (e1 e2 : EndKind),
      fs p1 = some (c1, e1) → fs p2 = some (c2, e2) →
      mainRun fs argv0 ["-f", p1, "-f", p2] = ⟨some (0, 0), c2, [], 0⟩ ∧
      parseArgs fs ["-f", p1, "-f", p2]
        = Except.ok ⟨0, 0, some (c2, e2), some p2, [p2]⟩) := by
  refine ⟨?_, fun fs st a evs => ⟨rfl, rfl⟩, ?_⟩
  · intro fs args x hx
    exact runStates_handles fs (getoptEvents args) st0 goodSt_st0 x hx
  · intro fs argv0 p1 p2 c1 c2 e1 e2 h1 h2
    have hev : getoptEvents ["-f", p1, "-f", p2]
        = [GetoptEv.f p1, GetoptEv.f p2] := rfl
    have hpar : parseArgs fs ["-f", p1, "-f", p2]
        = Except.ok ⟨0, 0, some (c2, e2), some p2, [p2]⟩ := by
      rw [parseArgs, hev]
      simp only [runEvents, applyEv, st0]
      simp only [closeCur, openF, h1, h2]
      simp [closeCur, openF, h2, List.erase_cons_head]
    refine ⟨?_, hpar⟩
    simp [mainRun, hpar, dump_file, dumpChunks_flatten]

/-- Witness for C6: with files `a` (content `x`) and `b` (content `y`),
`-f a -f b` copies only `y` and the final state holds only handle `b`. -/
theorem c6_witness :
    mainRun
        (fun p => if p = "a" then some (['x'], EndKind.eof)
          else if p = "b" then some (['y'], EndKind.eof) else none)
        "prog" ["-f", "a", "-f", "b"]
      = ⟨some (0, 0), ['y'], [], 0⟩ ∧
    parseArgs
        (fun p => if p = "a" then some (['x'], EndKind.eof)
          else if p = "b" then some (['y'], EndKind.eof) else none)
        ["-f", "a", "-f", "b"]
      = Except.ok ⟨0, 0, some (['y'], EndKind.eof), some "b", ["b"]⟩ :=
  c6_single_open_handle.2.2 _ "prog" "a" "b" ['x'] ['y'] EndKind.eof
    EndKind.eof (by decide) (by decide)

/-- C7: an argument list carrying an unrecognised flag or `-h` (and no
earlier open failure: every path opens) makes the program print the usage
line naming `basename(argv[0])` on the error stream and exit nonzero, with
no configuration lines and no copied bytes on standard output. -/
theorem c7_usage_on_bad_flag (fs : String → Option FileT) (argv0 : String)
    (args : List String) (hfs : ∀ p, (fs p).isSome)
    (hbad : GetoptEv.bad ∈ getoptEvents args) :
    mainRun fs argv0 args = ⟨none, [], [ErrMsg.usage (basename argv0)], 1⟩ := by
  have hp : parseArgs fs args = Except.error StepError.usage :=
    runEvents_bad fs hfs (getoptEvents args) st0 hbad
  simp [mainRun, hp]

/-- Witness for C7: `-h` is not in the option string, so it yields the
usage error. -/
theorem c7_witness :
    mainRun (fun _ => some ([], EndKind.eof)) "dir/prog" ["-h"]
      = ⟨none, [], [ErrMsg.usage (basename "dir/prog")], 1⟩ :=
  c7_usage_on_bad_flag (fun _ => some ([], EndKind.eof)) "dir/prog" ["-h"]
    (fun _ => rfl) (by decide)

/-- C8: when the scanner reaches `-f <p>` with `<p>` unopenable (the
events before it all succeed), the program reports the open error on the
error stream and exits nonzero before printing any configuration line and
before copying anything. -/
theorem c8_open_failure_aborts (fs : String → Option FileT) (argv0 : String)
    (args : List String) (p : String) (pre rest : List GetoptEv)
    (st : ParserSt) (hev : getoptEvents args = pre ++ GetoptEv.f p :: rest)
    (hpre : runEvents fs st0 pre = Except.ok st) (hopen : fs p = none) :
    mainRun fs argv0 args = ⟨none, [], [ErrMsg.openFail], 1⟩ := by
  have hp : parseArgs fs args = Except.error (StepError.openFail p) := by
    rw [parseArgs, hev, runEvents_append_ok fs pre _ st0 st hpre]
    simp [runEvents, applyEv, openF, hopen]
  simp [mainRun, hp]

/-- Witness for C8: no file opens, so `-f x` aborts with the open error
and an empty standard output. -/
theorem c8_witness :
    mainRun (fun _ => none) "prog" ["-f", "x"]
      = ⟨none, [], [ErrMsg.openFail], 1⟩ :=
  c8_open_failure_aborts (fun _ => none) "prog" ["-f", "x"] "x" [] [] st0
    rfl rfl rfl

/-- C9: two invocations differing only in the number of `-v` flags (same
file arguments, same `-n` argument) produce the same standard output
except possibly the `verbose = <N>` line — the number value, copied bytes,
presence of the configuration lines, error-stream messages and exit status
are all identical.  Verbosity influences nothing but the printed counter. -/
theorem c9_verbosity_noninterference (fs : String → Option FileT)
    (argv0 : String) (base : List String) (k1 k2 : Nat) :
    (mainRun fs argv0 (List.replicate k1 "-v" ++ base)).config.map Prod.snd
      = (mainRun fs argv0 (List.replicate k2 "-v" ++ base)).config.map Prod.snd ∧
    (mainRun fs argv0 (List.replicate k1 "-v" ++ base)).config.isSome
      = (mainRun fs argv0 (List.replicate k2 "-v" ++ base)).config.isSome ∧
    (mainRun fs argv0 (List.replicate k1 "-v" ++ base)).body
      = (mainRun fs argv0 (List.replicate k2 "-v" ++ base)).body ∧
    (mainRun fs argv0 (List.replicate k1 "-v" ++ base)).err
      = (mainRun fs argv0 (List.replicate k2 "-v" ++ base)).err ∧
    (mainRun fs argv0 (List.replicate k1 "-v" ++ base)).exit
      = (mainRun fs argv0 (List.replicate k2 "-v" ++ base)).exit := by
  have key : ∀ k : Nat, parseArgs fs (List.replicate k "-v" ++ base)
      = (parseArgs fs base).map (addVerb k) := by
    intro k
    rw [parseArgs, getoptEvents_replicate_v]
    rw [show st0 = (⟨0, 0, none, none, []⟩ : ParserSt) from rfl]
    rw [runEvents_replicate_v fs k (getoptEvents base) 0 0 none none []]
    rw [runEvents_addVerb fs (getoptEvents base) 0 0 none none [] k]
    rfl
  have hm : ∀ k : Nat, mainRun fs argv0 (List.replicate k "-v" ++ base)
      = (match parseArgs fs base with
        | Except.error StepError.usage =>
          ⟨none, [], [ErrMsg.usage (basename argv0)], 1⟩
        | Except.error (StepError.openFail _) =>
          ⟨none, [], [ErrMsg.openFail], 1⟩
        | Except.ok st =>
          if (dump_file st.fp).ret < 0 then
            ⟨some (st.verbose + k, st.number), (dump_file st.fp).out,
              [ErrMsg.dumpFail (dump_file st.fp).errno], 1⟩
          else
            ⟨some (st.verbose + k, st.number), (dump_file st.fp).out, [], 0⟩
        : RunResult) := by
    intro k
    rw [mainRun, key k]
    cases parseArgs fs base with
    | error e => cases e <;> rfl
    | ok st => rfl
  rw [hm k1, hm k2]
  cases parseArgs fs base with
  | error e => cases e <;> simp
  | ok st =>
    by_cases hd : (dump_file st.fp).ret < 0 <;> simp [hd]

/-- C10: when parsing succeeds and no `-f` flag was supplied, the program
still prints both configuration-summary lines to standard output and only
then reports the missing-input failure (EINVAL from `dump_file`) on the
error stream, exiting nonzero with nothing copied. -/
theorem c10_config_printed_before_missing_input_error
    (fs : String → Option FileT) (argv0 : String) (args : List String)
    (st : ParserSt) (h : parseArgs fs args = Except.ok st)
    (hnf : ∀ p, GetoptEv.f p ∉ getoptEvents args) :
    mainRun fs argv0 args
      = ⟨some (st.verbose, st.number), [],
          [ErrMsg.dumpFail (some Errno.einval)], 1⟩ := by
  have hfp : st.fp = none := by
    have h2 := runEvents_fp_of_no_f fs (getoptEvents args) st0 st h hnf
    simpa [st0] using h2
  simp [mainRun, h, hfp, dump_file]

/-- Witness for C10: `-v -n 7` opens nothing; the run prints
`verbose = 1` and `number  = 7`, then fails with EINVAL. -/
theorem c10_witness :
    mainRun (fun _ => none) "prog" ["-v", "-n", "7"]
      = ⟨some (1, 7), [], [ErrMsg.dumpFail (some Errno.einval)], 1⟩ :=
  c10_config_printed_before_missing_input_error (fun _ => none) "prog"
    ["-v", "-n", "7"] ⟨1, 7, none, none, []⟩ rfl
    (by
      intro p hp
      rw [show getoptEvents ["-v", "-n", "7"]
          = [GetoptEv.v, GetoptEv.n "7"] from rfl] at hp
      simp at hp)
